import Mathlib

/-!
Shallow embedding of the bandcamper acquisition pipeline, translated from
src/bandcamper/bandcamper.py and src/bandcamper/metadata/bandcamp_writer.py.

Strings are modelled as lists of characters (`Str`).  External collaborators
(HTTP transport, mailbox client, filesystem, tag codec, stdlib URL parsing)
are modelled as oracle inputs to the translated functions, matching the
spec's component boundaries.  Regular expressions appearing in the source
are translated into explicit scanning functions over `Str`; character
classes are modelled at ASCII granularity, which is exact for every input
the surrounding checks admit.
-/

/-- Character strings, modelled as lists of characters. -/
abbrev Str := List Char

/-- Python str.lower, character by character (exact for the ASCII data the
surrounding regexes admit). -/
def lowerStr (s : Str) : Str := s.map Char.toLower

/-- Number of path-separator characters in a string. -/
def sepCount (s : Str) : Nat := (s.filter (fun c => c == '/')).length

/-- Python str.strip with an explicit character class: drop the given
characters from both ends. -/
def stripChars (bad : Char → Bool) (s : Str) : Str :=
  ((s.dropWhile bad).reverse.dropWhile bad).reverse

/-- First-match association-list lookup, modelling Python dict access on the
JSON objects the source manipulates. -/
def lookupStr {α : Type} (l : List (Str × α)) (k : Str) : Option α :=
  match l with
  | [] => none
  | (k₀, v) :: rest => if k₀ = k then some v else lookupStr rest k

/-! ## URL Resolver (bandcamper.py lines 32-135) -/

/-- One character of the class [a-z0-9] under re.IGNORECASE, as used by
_BANDCAMP_SUBDOMAIN_PATTERN. -/
def isSubAl (c : Char) : Bool := c.isAlpha || c.isDigit

/-- One character of the class [a-z0-9-] under re.IGNORECASE. -/
def isSubMid (c : Char) : Bool := isSubAl c || c == '-'

/-- BANDCAMP_SUBDOMAIN_REGEX.fullmatch: the pattern
[a-z0-9][a-z0-9-]\x7b2,\x7d[a-z0-9] with re.IGNORECASE, matched against the
whole identifier (first character alphanumeric, at least two middle
characters from [a-z0-9-], final character alphanumeric). -/
def bandcampSubdomainFullmatch (s : Str) : Bool :=
  match s.head?, s.getLast? with
  | some a, some b =>
      decide (4 ≤ s.length) && isSubAl a && isSubAl b &&
        ((s.drop 1).dropLast.all isSubMid)
  | _, _ => false

/-- add_url, subdomain branch (lines 107-109): a fullmatching name resolves
to the artist-root URL built from its lowercase form. -/
def subdomainArtistUrl (name : Str) : Option Str :=
  if bandcampSubdomainFullmatch name then
    some (("https://".toList) ++ lowerStr name ++ (".bandcamp.com/music".toList))
  else none

/-- Case-insensitive suffix test (re.IGNORECASE). -/
def endsWithCI (suf s : Str) : Bool := (lowerStr suf).isSuffixOf (lowerStr s)

/-- BANDCAMP_URL_REGEX.fullmatch: optional www. head, then the subdomain
pattern, then .bandcamp.com, case-insensitively.  The subdomain class has no
dot, so the decomposition below is the only possible one. -/
def bandcampUrlFullmatch (s : Str) : Bool :=
  let suf : Str := ".bandcamp.com".toList
  if endsWithCI suf s then
    let core := s.take (s.length - suf.length)
    bandcampSubdomainFullmatch core ||
      (lowerStr (core.take 4) == ("www.".toList) &&
        bandcampSubdomainFullmatch (core.drop 4))
  else false

/-- Result of urlparse on the identifier, after the schemeless fix-up and
force-https rewrite of add_url lines 120-124 (urllib.parse is a stdlib
collaborator; its output is supplied as data). -/
structure ParsedUrl where
  scheme : Str
  netloc : Str
  path : Str
deriving DecidableEq, Repr

/-- ParsedUrl.geturl for the scheme://netloc/path shapes used here. -/
def geturl (p : ParsedUrl) : Str := p.scheme ++ ("://".toList) ++ p.netloc ++ p.path

/-- Outcome of the Page Fetcher on an artist root: a page whose music-grid
container is present (with its resolved anchor URLs), a page without the
container, or an HTTP error with its status code. -/
inductive FetchOutcome where
  | page (musicGrid : Option (List Str))
  | httpError (status : Nat)
deriving DecidableEq, Repr

/-- _add_urls_from_artist (lines 89-105): an HTTP error from the fetch
propagates; an absent music-grid raises ValueError; otherwise the anchors
resolve to release URLs.  Anchor resolution itself uses the stdlib URL
collaborators and is supplied resolved. -/
inductive ArtistError where
  | http (status : Nat)
  | noGrid
deriving DecidableEq, Repr

def add_urls_from_artist (fetch : FetchOutcome) : Except ArtistError (List Str) :=
  match fetch with
  | .httpError s => .error (.http s)
  | .page none => .error .noGrid
  | .page (some urls) => .ok urls

/-- Observable outcome of add_url (lines 107-135).  The scream* outcomes are
handled in-function via screamer.error and let the caller's loop continue;
the uncaught* outcomes are exceptions escaping add_url to its caller. -/
inductive AddUrlResult where
  | ok (urls : List Str)
  | screamNotFound
  | screamRequestError
  | screamNoReleases
  | raiseInvalid
  | uncaughtHttp (status : Nat)
  | uncaughtNoGrid
deriving DecidableEq, Repr

/-- Characters stripped by path.strip of a slash and a space. -/
def isSlashSpace (c : Char) : Bool := c == '/' || c == ' '

/-- add_url (lines 107-135).  `parsed` is the urlparse of the identifier
after scheme normalization, `validCustomDomain` the custom-domain IP check,
and `fetch` the artist-root fetch outcome (used only on the artist-root
paths).  In the subdomain branch exceptions from _add_urls_from_artist are
caught (404 scream-not-found, other HTTP scream-request-error, missing grid
scream-no-releases); in the URL branch with empty or music path the same
call is not wrapped in try/except, so its exceptions escape. -/
def add_url (name : Str) (parsed : ParsedUrl) (validCustomDomain : Bool)
    (fetch : FetchOutcome) : AddUrlResult :=
  if bandcampSubdomainFullmatch name then
    match add_urls_from_artist fetch with
    | .ok urls => .ok urls
    | .error (.http s) => if s = 404 then .screamNotFound else .screamRequestError
    | .error .noGrid => .screamNoReleases
  else
    if bandcampUrlFullmatch parsed.netloc || validCustomDomain then
      if stripChars isSlashSpace parsed.path = ("music".toList) ∨
          stripChars isSlashSpace parsed.path = [] then
        match add_urls_from_artist fetch with
        | .ok urls => .ok urls
        | .error (.http s) => .uncaughtHttp s
        | .error .noGrid => .uncaughtNoGrid
      else .ok [geturl parsed]
    else .raiseInvalid

/-! ## Fallback downloader (bandcamper.py lines 303-323) -/

/-- One entry of music_data trackinfo as consumed by download_fallback_mp3:
`file` is the mp3-128 preview URL when the track's file mapping is truthy,
`track_num` and `title` the per-track fields. -/
structure TrackInfo where
  file : Option Str
  track_num : Option Nat
  title : Str
deriving DecidableEq, Repr

/-- Decimal digits of a natural number (Python str on an int). -/
def natStr (n : Nat) : Str := Nat.toDigits 10 n

/-- Python format spec 02d: zero-pad to width two. -/
def pad2 (n : Nat) : Str := if n < 10 then '0' :: natStr n else natStr n

/-- Loop body of download_fallback_mp3.  Note two source behaviours kept
faithfully: when track_num is None the code assigns the integer 1, which the
f-string renders as the single character 1 (no zero padding); and the `title`
variable rebinding inside the loop makes every later track reuse the first
preview track's title once a None release title has been replaced. -/
def fallback_mp3_go (artist album : Str) (title : Option Str) :
    List TrackInfo → List Str
  | [] => []
  | t :: ts =>
    match t.file with
    | none => fallback_mp3_go artist album title ts
    | some _ =>
      let track_num : Str :=
        match t.track_num with
        | none => [ '1' ]
        | some n => pad2 n
      let title0 : Str :=
        match title with
        | none => t.title
        | some s => s
      (artist ++ (" - ".toList) ++ album ++ (" - ".toList) ++ track_num ++
          (" ".toList) ++ title0 ++ ("{ext}".toList)) ::
        fallback_mp3_go artist album (some title0) ts

/-- download_fallback_mp3 (lines 303-323): the per-file name templates it
hands to the download collaborator, in track order; tracks whose file field
is falsy are skipped without any output. -/
def download_fallback_mp3 (track_info : List TrackInfo) (artist album : Str)
    (title : Option Str) : List Str :=
  fallback_mp3_go artist album title track_info

/-! ## Download Strategy Engine: strategy selection (lines 325-402) -/

/-- The fallback-only format name. -/
def mp3_128 : Str := "mp3-128".toList

/-- Outcome of the strategy-selection portion of download_from_url:
either a list of produced artifact names, a silent return (the
`elif not self.fallback: return` arm, producing nothing and reporting
nothing), or the release-level no-free-download ValueError of the final
else arm. -/
inductive DLResult where
  | files (fs : List Str)
  | silentReturn
  | errorNoFree
deriving DecidableEq, Repr

/-- Strategy selection and mp3-128 rerouting of download_from_url
(lines 330-334 and 368-402).  `official` is the oracle for _free_download's
produced artifacts as a function of the formats passed to it (identical for
the free and the email-gated arm, which share that procedure).  The
email-request leg's own failures are outside this slice. -/
def download_from_url (hasFreePage requireEmail fallback : Bool)
    (formats : List Str) (official : List Str → List Str)
    (track_info : List TrackInfo) (artist album : Str) (title : Option Str) :
    DLResult :=
  let download_mp3 := decide (mp3_128 ∈ formats)
  let formats' := formats.filter (fun f => f ≠ mp3_128)
  let fallbackFiles := download_fallback_mp3 track_info artist album title
  let finish : List Str → Bool → DLResult := fun fps dmp3 =>
    .files (fps ++ (if dmp3 then fallbackFiles else []))
  if hasFreePage then finish (official formats') download_mp3
  else if requireEmail then finish (official formats') download_mp3
  else if fallback || download_mp3 then finish fallbackFiles false
  else if !fallback then .silentReturn
  else .errorNoFree

/-! ## Free-Download procedure, per-format handling (lines 155-195) -/

/-- JSON body returned by the statdownload endpoint. -/
structure StatData where
  result : Str
  download_url : Str
  retry_url : Str
deriving DecidableEq, Repr

/-- Python str.replace: every non-overlapping occurrence of `pat`,
left to right, becomes `rep`. -/
def replaceAll (pat rep : Str) : Str → Str
  | [] => []
  | c :: cs =>
    if h : pat ≠ [] ∧ (c :: cs).take pat.length = pat then
      rep ++ replaceAll pat rep ((c :: cs).drop pat.length)
    else c :: replaceAll pat rep cs
termination_by s => s.length
decreasing_by
  all_goals simp_wf
  · have h1 : 0 < pat.length := List.length_pos.mpr h.1
    have h2 := congrArg List.length h.2
    simp [List.length_take] at h2
    simp [List.length_drop]
    omega

/-- The stat endpoint path, derived from the download descriptor's path by
rewriting the fixed segment (line 164). -/
def stat_path (p : Str) : Str := replaceAll ("/download/".toList) ("/statdownload/".toList) p

/-- Per-format event of the _free_download loop. -/
inductive FormatEvent where
  | download (fmt url : Str)
  | formatErrored (fmt : Str)
  | formatNotFound (fmt : Str)
deriving DecidableEq, Repr

/-- The event _free_download produces for one requested format (lines
161-194): present format with stat result ok downloads the direct URL, with
result err downloads the retry URL, with any other result screams a format
error and continues; an absent format screams download-not-found. -/
def format_event (downloadable : List (Str × Str)) (stat : Str → StatData)
    (fmt : Str) : FormatEvent :=
  match lookupStr downloadable fmt with
  | some u =>
    let fwd := stat (stat_path u)
    if lowerStr fwd.result = ("ok".toList) then .download fmt fwd.download_url
    else if lowerStr fwd.result = ("err".toList) then .download fmt fwd.retry_url
    else .formatErrored fmt
  | none => .formatNotFound fmt

/-- The _free_download format loop as a trace of per-format events, in
request order. -/
def free_download (downloadable : List (Str × Str)) (stat : Str → StatData) :
    List Str → List FormatEvent
  | [] => []
  | fmt :: fs => format_event downloadable stat fmt :: free_download downloadable stat fs

/-! ## Email polling loop (lines 197-235) -/

/-- The hard-failure message raised when the timeout elapses. -/
def emailTimeoutMsg : Str := "Bandcamp email not received. Try increasing the timeout.".toList

/-- Result of the polling loop: the first message of the first non-empty
mailbox check, or the timeout ValueError. -/
inductive PollResult (Msg : Type) where
  | received (m : Msg)
  | timeoutError (msg : Str)
deriving DecidableEq, Repr

/-- The while-loop of _get_download_url_from_email (lines 224-233).
`get k` is the mailbox contents observed at the k-th sleep-and-check
iteration (k counts time_sleeping after its increment).  Returns the result
together with the number of sleep-and-check iterations performed. -/
def poll_go {Msg : Type} (timeout : Nat) (get : Nat → List Msg) (t : Nat) :
    PollResult Msg × Nat :=
  if h : timeout < t then (.timeoutError emailTimeoutMsg, t)
  else
    match get (t + 1) with
    | [] => poll_go timeout get (t + 1)
    | m :: _ => (.received m, t + 1)
termination_by timeout + 1 - t
decreasing_by simp_wf; omega

/-- The polling loop from its initial state msgs = [] , time_sleeping = 0. -/
def poll {Msg : Type} (timeout : Nat) (get : Nat → List Msg) : PollResult Msg × Nat :=
  poll_go timeout get 0

/-! ## Track Matcher (bandcamp_writer.py lines 326-376) -/

/-- One track record of the metadata extractor's track list. -/
structure Track where
  number : Option Nat
  title : Str
  duration : Option Str
deriving DecidableEq, Repr

/-- Python regex class backslash-s, modelled at ASCII/common-whitespace
granularity. -/
def isPySpace (c : Char) : Bool := c.isWhitespace

/-- The separator class of _fuzzy_match: underscore, hyphen, whitespace. -/
def isFuzzySep (c : Char) : Bool := c == '_' || c == '-' || isPySpace c

/-- Collapse runs of spaces to a single space. -/
def squeezeSpaces : Str → Str
  | [] => []
  | [c] => [c]
  | a :: b :: cs =>
    if a == ' ' && b == ' ' then squeezeSpaces (b :: cs)
    else a :: squeezeSpaces (b :: cs)

/-- re.sub of a separator run to one space, followed by str.strip: each
maximal run of separator characters becomes a single space, then spaces are
trimmed from both ends (after the substitution only plain spaces remain at
the ends). -/
def normalizeSeps (s : Str) : Str :=
  stripChars (fun c => c == ' ')
    (squeezeSpaces (s.map (fun c => if isFuzzySep c then ' ' else c)))

/-- Python str.split with no argument on the normalized strings: split on
spaces, dropping empties (after normalizeSeps the only whitespace left is a
single space). -/
def splitWordsGo (cur : Str) : Str → List Str
  | [] => if cur = [] then [] else [cur.reverse]
  | c :: cs =>
    if c == ' ' then
      if cur = [] then splitWordsGo [] cs else cur.reverse :: splitWordsGo [] cs
    else splitWordsGo (c :: cur) cs

def splitWords (s : Str) : List Str := splitWordsGo [] s

/-- Python substring containment: the needle occurs contiguously in the
haystack (true for an empty needle). -/
def isInfixL (needle : Str) : Str → Bool
  | [] => decide (needle = [])
  | c :: cs => (decide ((c :: cs).take needle.length = needle)) || isInfixL needle cs

/-- _fuzzy_match (lines 357-376): normalize separators, test two-way
substring containment, else compare the word-set overlap ratio against the
0.6 threshold.  The Python float comparison overlap/total >= 0.6 is
modelled by the exact rational inequality 5*overlap >= 3*total; IEEE
division is correctly rounded and monotone, so the two agree for every word
count reachable from real inputs. -/
def fuzzy_match (str1 str2 : Str) : Bool :=
  let clean1 := normalizeSeps str1
  let clean2 := normalizeSeps str2
  if isInfixL clean1 clean2 || isInfixL clean2 clean1 then true
  else
    let words1 := (splitWords clean1).dedup
    let words2 := (splitWords clean2).dedup
    if words1 = [] ∨ words2 = [] then false
    else
      let overlap := (words1.filter (fun w => w ∈ words2)).length
      let total := ((splitWords clean1) ++ (splitWords clean2)).dedup.length
      decide (3 * total ≤ 5 * overlap)

/-- First maximal run of decimal digits in a string (re.search of one or
more digits). -/
def firstDigitRun : Str → Option Str
  | [] => none
  | c :: cs =>
    if c.isDigit then some ((c :: cs).takeWhile Char.isDigit)
    else firstDigitRun cs

/-- Python int on a digit string. -/
def digitsVal (s : Str) : Nat := s.foldl (fun a c => 10 * a + (c.toNat - 48)) 0

/-- _find_matching_track (lines 326-355): empty track list matches nothing;
else the first digit run of the lowercased stem is matched exactly against
the tracks' number fields (first match wins); else the first track whose
title is non-empty and fuzzy-matches wins; else a singleton track list
matches unconditionally. -/
def find_matching_track (stem : Str) (tracks : List Track) : Option Track :=
  if tracks = [] then none
  else
    let filename := lowerStr stem
    let byNum : Option Track :=
      match firstDigitRun filename with
      | some run => tracks.find? (fun t => decide (t.number = some (digitsVal run)))
      | none => none
    match byNum with
    | some t => some t
    | none =>
      match tracks.find?
          (fun t => !(t.title.isEmpty) && fuzzy_match filename (lowerStr t.title)) with
      | some t => some t
      | none => if tracks.length = 1 then tracks.head? else none

/-- The Track Matcher exactly as the claim words it: (1) exact match of the
first digit run against a track number, first match wins; (2) else fuzzy
title match (containment or word-overlap at least 0.6), first match wins;
(3) else a single-track list matches unconditionally; (4) else no match. -/
def find_matching_track_claim (stem : Str) (tracks : List Track) : Option Track :=
  let filename := lowerStr stem
  let byNum : Option Track :=
    match firstDigitRun filename with
    | some run => tracks.find? (fun t => decide (t.number = some (digitsVal run)))
    | none => none
  match byNum with
  | some t => some t
  | none =>
    match tracks.find? (fun t => fuzzy_match filename (lowerStr t.title)) with
    | some t => some t
    | none => if tracks.length = 1 then tracks.head? else none

/-! ## Path Templater and Sanitizer (bandcamper.py lines 237-301) -/

/-- One piece of a naming template: literal text or a placeholder. -/
inductive TItem where
  | lit (s : Str)
  | field (name : String)
deriving DecidableEq, Repr

/-- A naming template is a sequence of pieces. -/
abbrev Template := List TItem

/-- A RenderContext: template variable names to string values. -/
abbrev Ctx := List (String × Str)

/-- Dict lookup in a RenderContext (entries added by dict.update stand in
front); a missing key renders as empty. -/
def lookupCtx (ctx : Ctx) (k : String) : Str :=
  match ctx with
  | [] => []
  | (k₀, v) :: rest => if k₀ = k then v else lookupCtx rest k

/-- Modelled from the spec: FilenameFormatter (bandcamper.utils, not under
src/) renders a user naming template against the context, substituting each
placeholder's value and passing literal text through. -/
def render (tmpl : Template) (ctx : Ctx) : Str :=
  match tmpl with
  | [] => []
  | .lit s :: rest => s ++ render rest ctx
  | .field k :: rest => lookupCtx ctx k ++ render rest ctx

/-- value.replace of a slash with a hyphen. -/
def replaceSep (s : Str) : Str := s.map (fun c => if c == '/' then '-' else c)

/-- The context-sanitization loop of move_file (lines 288-291): every string
value has its slashes replaced by hyphens before rendering. -/
def sanitizeContext (ctx : Ctx) : Ctx := ctx.map (fun p => (p.1, replaceSep p.2))

/-- The audio suffixes hard-coded in _sanitize_file_path (line 250). -/
def audioExts : List Str :=
  [(".mp3".toList), (".flac".toList), (".wav".toList),
   (".m4a".toList), (".aiff".toList), (".ogg".toList)]

/-- Whether the string ends with a recognized audio suffix, matched
case-insensitively (re.IGNORECASE on the sanitizer's pattern). -/
def hasAudioExt (s : Str) : Bool := audioExts.any (fun e => e.isSuffixOf (lowerStr s))

/-- Split a string at its last slash: some (dir, fname) with
s = dir ++ slash ++ fname and fname slash-free, or none when no slash. -/
def splitAtLastSep : Str → Option (Str × Str)
  | [] => none
  | c :: cs =>
    match splitAtLastSep cs with
    | some (d, f) => some (c :: d, f)
    | none => if c == '/' then some ([], cs) else none

/-- The maximal newline-free suffix of a string: the line on which the
sanitizer's regex must lie, since its dot class cannot cross a newline. -/
def lastLine (s : Str) : Str :=
  (s.reverse.takeWhile (fun c => !(c == '\n'))).reverse

/-- _sanitize_file_path (lines 237-277).  Its regex — a greedy
dot-star-slash group followed by a group ending in an audio suffix at the
end anchor — is applied without DOTALL, so the dot class never matches a
newline and the end anchor matches at the end of the string or just
before one final newline.  A match therefore exists exactly when the last
line of the string (after dropping a single trailing newline, if any)
contains a slash and ends, case-insensitively, with a recognized audio
suffix; the leftmost such match starts at that line's start and its
greedy first group reaches the line's last slash.  The code rebuilds the
path from the two groups alone, so everything before the matched line
(earlier lines and a trailing newline included) is dropped, the directory
part is the line up to its last slash, and the slash-free filename part
has its slashes replaced (a no-op); a line-initial slash yields an empty
directory part, which the rebuild omits.  When no match exists, every
slash of the whole original string is replaced by a hyphen.  The trailing
pathvalidate sanitize_filepath collaborator (host-specific reserved
characters, out of scope per the spec) is modelled as the identity, as is
the final Path constructor. -/
def sanitize_file_path (s : Str) : Str :=
  let core := if s.getLast? = some '\n' then s.dropLast else s
  let line := lastLine core
  if hasAudioExt line then
    match splitAtLastSep line with
    | some (dir, fname) =>
      let sanitized := replaceSep fname
      if dir = [] then sanitized else dir ++ '/' :: sanitized
    | none => replaceSep s
  else replaceSep s

/-- move_file (lines 279-301).  `isAudio` models the membership test of the
file suffix in suffix_to_metadata (bandcamper.metadata.utils, not under
src/); `trackCtx` models the context entries added by get_track_output_context
for audio files (Modelled from the spec: per-file track number, track title
and file-extension values); for non-audio files the extra template is used
and the context gains the original filename.  The pathlib join of the
destination with the rendered path keeps pathlib's absolute-path rule — a
rendered path beginning with a separator discards the destination — and
is otherwise concatenation with a single separator (pathlib's collapsing
of duplicate or trailing separators is outside the model). -/
def move_file (isAudio : Bool) (dest : Str) (output output_extra : Template)
    (trackCtx : Ctx) (filename : Str) (context : Ctx) : Str :=
  let tmpl := if isAudio then output else output_extra
  let ctx := if isAudio then trackCtx ++ context
    else [(("filename" : String), filename)] ++ context
  let sctx := sanitizeContext ctx
  let formatted := render tmpl sctx
  let joined := if formatted.head? = some '/' then formatted
    else dest ++ '/' :: formatted
  sanitize_file_path joined

/-- Number of separators contributed by a template's literal text. -/
def templateSepCount : Template → Nat
  | [] => 0
  | .lit s :: rest => sepCount s + templateSepCount rest
  | .field _ :: rest => templateSepCount rest

/-! ## Metadata Extractor: release-year cascade
(bandcamp_writer.py lines 122-219) -/

/-- The pagedata blob's `current` object, as far as the year cascade reads
it. -/
structure PagedataCurrent where
  release_date : Option Str
  publish_date : Option Str
deriving DecidableEq, Repr

/-- The parsed page as the six-level cascade consumes it: the text of the
tralbum-credits block when present, the content strings of the
music:release_date meta tags in document order, the pagedata `current`
object when the data blob parses and has one, the datePublished strings of
the parseable JSON-LD scripts, and the raw page text (response.text) used
by the two last-resort levels.  HTML and JSON parsing are collaborator
work (BeautifulSoup / json). -/
structure Page where
  creditsText : Option Str
  metaContents : List Str
  pagedataCurrent : Option PagedataCurrent
  jsonLdDatePublished : List Str
  pageText : Str
deriving DecidableEq, Repr

/-- The per-candidate check the cascade applies before returning: all-digit,
length four, and value within [1950, 2030]. -/
def yearOk (y : Str) : Bool :=
  y.all Char.isDigit && decide (y.length = 4) &&
    decide (1950 ≤ digitsVal y) && decide (digitsVal y ≤ 2030)

/-- Consume one-or-more characters of a class (a greedy plus-quantifier over
a class disjoint from what follows), returning the remainder. -/
def eatRun1 (p : Char → Bool) (s : Str) : Option Str :=
  match s with
  | [] => none
  | c :: cs => if p c then some (cs.dropWhile p) else none

/-- Attempt the released-date regex at the current position: the literal
`released` (case-insensitive), whitespace, letters, whitespace, a one- or
two-digit day (a longer digit run cannot match, since a digit would then
follow where a comma or whitespace is required), an optional comma,
whitespace, and four digits, whose text is the captured year. -/
def matchReleasedAt (s : Str) : Option Str :=
  if lowerStr (s.take 8) = ("released".toList) then
    (eatRun1 isPySpace (s.drop 8)).bind fun s1 =>
    (eatRun1 Char.isAlpha s1).bind fun s2 =>
    (eatRun1 isPySpace s2).bind fun s3 =>
    (let dlen := (s3.takeWhile Char.isDigit).length
     if dlen = 1 ∨ dlen = 2 then
       let s4 := s3.dropWhile Char.isDigit
       let s5 := match s4 with
         | ',' :: t => t
         | t => t
       (eatRun1 isPySpace s5).bind fun s6 =>
       (let y := s6.take 4
        if decide (y.length = 4) && y.all Char.isDigit then some y else none)
     else none)
  else none

/-- re.search of the released-date pattern: leftmost match wins. -/
def searchReleasedYear : Str → Option Str
  | [] => none
  | c :: cs =>
    match matchReleasedAt (c :: cs) with
    | some y => some y
    | none => searchReleasedYear cs

/-- re.search of four consecutive digits: the leftmost window of four
digits. -/
def firstFourDigits : Str → Option Str
  | [] => none
  | c :: cs =>
    let y := (c :: cs).take 4
    if decide (y.length = 4) && y.all Char.isDigit then some y
    else firstFourDigits cs

/-- The shared per-date-string loop of cascade levels 2 and 3: for each
string, take its first four-digit window; return it if it passes the bounds
check, otherwise continue with the remaining strings. -/
def fourDigitLoop : List Str → Option Str
  | [] => none
  | d :: ds =>
    match firstFourDigits d with
    | some y => if yearOk y then some y else fourDigitLoop ds
    | none => fourDigitLoop ds

/-- The date fields of the pagedata current object that the level-3 loop
visits: release_date then publish_date, skipping absent or falsy (empty)
values. -/
def currentDates (cur : PagedataCurrent) : List Str :=
  (match cur.release_date with
   | some d => if d = [] then [] else [d]
   | none => []) ++
  (match cur.publish_date with
   | some d => if d = [] then [] else [d]
   | none => [])

/-- Cascade level 4: for each JSON-LD datePublished string, its first four
characters, returned when they are four digits in bounds, else continue. -/
def jsonLdLoop : List Str → Option Str
  | [] => none
  | d :: ds =>
    let y := d.take 4
    if yearOk y then some y else jsonLdLoop ds

/-- Word character for the word-boundary anchors, modelled at ASCII
granularity. -/
def isWordChar (c : Char) : Bool := c.isAlphanum || c == '_'

/-- A position is a word boundary against the given neighbouring character
(none at the text's ends). -/
def boundaryOk : Option Char → Bool
  | none => true
  | some c => !(isWordChar c)

/-- The year class 20[0-2][0-9] of the level-5 pattern. -/
def pat20 (s4 : Str) : Bool :=
  match s4 with
  | [a, b, c, d] =>
    a == '2' && b == '0' && (c == '0' || c == '1' || c == '2') && d.isDigit
  | _ => false

/-- The year class 19[5-9][0-9] of the level-5 pattern. -/
def pat19 (s4 : Str) : Bool :=
  match s4 with
  | [a, b, c, d] =>
    a == '1' && b == '9' &&
      (c == '5' || c == '6' || c == '7' || c == '8' || c == '9') && d.isDigit
  | _ => false

/-- re.findall of a word-bounded four-character year class, leftmost to
rightmost.  The boundaries forbid adjacent word characters, so matches can
never overlap and the non-overlapping findall scan coincides with this
every-position scan. -/
def scanYears (ok4 : Str → Bool) : Option Char → Str → List Str
  | _, [] => []
  | prev, c :: cs =>
    let s4 := (c :: cs).take 4
    let after := (c :: cs).drop 4
    let hit := boundaryOk prev && decide (s4.length = 4) && ok4 s4 &&
      boundaryOk after.head?
    (if hit then [s4] else []) ++ scanYears ok4 (some c) cs

def findallYears (ok4 : Str → Bool) (text : Str) : List Str :=
  scanYears ok4 none text

/-- Python max over a list, used only on non-empty lists of years. -/
def maxL (l : List Nat) : Nat := l.foldr max 0

/-- The decimal digit characters (Python str of a single digit value). -/
def digitChar : Nat → Char
  | 0 => '0'
  | 1 => '1'
  | 2 => '2'
  | 3 => '3'
  | 4 => '4'
  | 5 => '5'
  | 6 => '6'
  | 7 => '7'
  | 8 => '8'
  | 9 => '9'
  | _ => '?'

/-- Python str on the four-digit year values this cascade feeds it. -/
def str4 (n : Nat) : Str :=
  [digitChar (n / 1000 % 10), digitChar (n / 100 % 10),
   digitChar (n / 10 % 10), digitChar (n % 10)]

/-- Cascade level 5 (lines 185-202): findall the 2000-2029 pattern; if any
match survives the bounds filter, return the most recent; otherwise repeat
with the 1950-1999 pattern. -/
def textYearResult (text : Str) : Option Str :=
  let m1 := findallYears pat20 text
  let v1 := (m1.filter yearOk).map digitsVal
  match v1 with
  | _ :: _ => some (str4 (maxL v1))
  | [] =>
    let m2 := findallYears pat19 text
    let v2 := (m2.filter yearOk).map digitsVal
    match v2 with
    | _ :: _ => some (str4 (maxL v2))
    | [] => none

/-- re.findall of the copyright-glyph pattern: the glyph, optional
whitespace, four digits. -/
def scanCopyright1 : Str → List Str
  | [] => []
  | c :: cs =>
    (if c == '©' then
       let rest := cs.dropWhile isPySpace
       let y := rest.take 4
       if decide (y.length = 4) && y.all Char.isDigit then [y] else []
     else []) ++ scanCopyright1 cs

/-- re.findall of the copyright-word pattern (case-insensitive): the word,
whitespace, four digits. -/
def scanCopyright2 : Str → List Str
  | [] => []
  | c :: cs =>
    (if lowerStr ((c :: cs).take 9) = ("copyright".toList) then
       match eatRun1 isPySpace ((c :: cs).drop 9) with
       | some rest =>
         let y := rest.take 4
         if decide (y.length = 4) && y.all Char.isDigit then [y] else []
       | none => []
     else []) ++ scanCopyright2 cs

/-- Cascade level 6's per-match loop: first bounds-passing year wins. -/
def copyrightLoop : List Str → Option Str
  | [] => none
  | y :: ys => if yearOk y then some y else copyrightLoop ys

/-- _extract_release_year (lines 122-219): the six levels tried in priority
order, each returning the first of its candidates that passes the bounds
check and otherwise falling through to the next level. -/
def extract_release_year (p : Page) : Option Str :=
  let l1 : Option Str :=
    match p.creditsText with
    | some t =>
      match searchReleasedYear t with
      | some y => if yearOk y then some y else none
      | none => none
    | none => none
  let l2 := fourDigitLoop p.metaContents
  let l3 : Option Str :=
    match p.pagedataCurrent with
    | some cur => fourDigitLoop (currentDates cur)
    | none => none
  let l4 := jsonLdLoop p.jsonLdDatePublished
  let l5 := textYearResult p.pageText
  let l6 : Option Str :=
    match copyrightLoop (scanCopyright1 p.pageText) with
    | some y => some y
    | none => copyrightLoop (scanCopyright2 p.pageText)
  l1.or (l2.or (l3.or (l4.or (l5.or l6))))

/-- The priority-ordered candidate list of the cascade as the spec words it:
the credits released-phrase year, the meta-tag years, the pagedata
release/publish years, the JSON-LD publication years, the most recent
word-bounded year literal of the two ranges, and the copyright years. -/
def yearCandidates (p : Page) : List Str :=
  (match p.creditsText with
   | some t => (searchReleasedYear t).toList
   | none => []) ++
  p.metaContents.filterMap firstFourDigits ++
  (match p.pagedataCurrent with
   | some cur => (currentDates cur).filterMap firstFourDigits
   | none => []) ++
  p.jsonLdDatePublished.map (fun d => d.take 4) ++
  (let all := findallYears pat20 p.pageText ++ findallYears pat19 p.pageText
   match all with
   | [] => []
   | _ :: _ => [str4 (maxL (all.map digitsVal))]) ++
  scanCopyright1 p.pageText ++
  scanCopyright2 p.pageText

/-- The cascade as the claim words it: the first candidate, in priority
order, whose value lies within the bounds. -/
def release_year_claim (p : Page) : Option Str :=
  (yearCandidates p).find? yearOk

/-! ## General helper lemmas -/

theorem find?_ext {α : Type} (p q : α → Bool) :
    ∀ (l : List α), (∀ x ∈ l, p x = q x) → l.find? p = l.find? q := by
  intro l
  induction l with
  | nil => intro _; rfl
  | cons a l ih =>
    intro h
    have ha := h a (by simp)
    simp only [List.find?]
    rw [ha]
    cases hq : q a with
    | true => rfl
    | false => exact ih (fun x hx => h x (by simp [hx]))

theorem isDigit_toNat (c : Char) (h : c.isDigit = true) :
    48 ≤ c.toNat ∧ c.toNat ≤ 57 := by
  unfold Char.isDigit at h
  simp at h
  exact ⟨h.1, h.2⟩

/-! ## C9 -/

/-- C9: an identifier that fullmatches the platform's subdomain regex
resolves to exactly the URL built from https://, the lowercased name, the
platform domain and the /music path. -/
theorem subdomain_resolves_to_lowered_music_url (name : Str)
    (h : bandcampSubdomainFullmatch name = true) :
    subdomainArtistUrl name =
      some (("https://".toList) ++ lowerStr name ++ (".bandcamp.com/music".toList)) := by
  simp [subdomainArtistUrl, h]

/-- C9 witness: the identifier examplelabel resolves to exactly
https://examplelabel.bandcamp.com/music. -/
theorem subdomain_resolves_witness :
    bandcampSubdomainFullmatch ("examplelabel".toList) = true ∧
      subdomainArtistUrl ("examplelabel".toList) =
        some ("https://examplelabel.bandcamp.com/music".toList) := by
  refine ⟨by decide, ?_⟩
  rw [subdomain_resolves_to_lowered_music_url ("examplelabel".toList) (by decide)]
  decide

/-! ## C2 -/

/-- C2: with no free-download page, no email gating, fallback disallowed and
the fallback-only format not requested, download_from_url silently returns
with zero files and no error; moreover the no-free-download error arm of its
branch chain is unreachable for every input. -/
theorem no_free_download_silent_return :
    (∀ formats official ti artist album title, mp3_128 ∉ formats →
      download_from_url false false false formats official ti artist album title =
        DLResult.silentReturn) ∧
    (∀ hasFree reqEmail fallback formats official ti artist album title,
      download_from_url hasFree reqEmail fallback formats official ti artist album title ≠
        DLResult.errorNoFree) := by
  constructor
  · intro formats official ti artist album title h
    simp [download_from_url, h]
  · intro hasFree reqEmail fallback formats official ti artist album title
    unfold download_from_url
    cases hasFree <;> cases reqEmail <;> cases fallback <;>
      by_cases h : mp3_128 ∈ formats <;> simp [h]

/-- C2 witness: the concrete failing input, a release offering nothing with
fallback off and only flac requested, yields the silent return. -/
theorem no_free_download_witness :
    mp3_128 ∉ [("flac".toList)] ∧
      download_from_url false false false [("flac".toList)] (fun _ => []) [] [] []
        none = DLResult.silentReturn :=
  ⟨by decide,
   no_free_download_silent_return.1 [("flac".toList)] (fun _ => []) [] [] [] none
     (by decide)⟩

/-! ## C3 -/

/-- C3: at a track list whose first preview track has no number and whose
second has number 2 and its own title, the fallback downloader names the
first file with the one-character number 1 (not the claimed two-digit 01)
and names the second file with the first track's title (not the claimed
per-track title); a track without a preview URL is skipped without
output. -/
theorem download_fallback_mp3_failing_input :
    download_fallback_mp3
        [⟨some ("u1".toList), none, ("Alpha".toList)⟩,
         ⟨none, some 5, ("Skip".toList)⟩,
         ⟨some ("u2".toList), some 2, ("Beta".toList)⟩]
        ("X".toList) ("Y".toList) none =
      [("X - Y - 1 Alpha{ext}".toList), ("X - Y - 02 Alpha{ext}".toList)] ∧
    ("X - Y - 1 Alpha{ext}".toList) ≠ ("X - Y - 01 Alpha{ext}".toList) ∧
    ("X - Y - 02 Alpha{ext}".toList) ≠ ("X - Y - 02 Beta{ext}".toList) := by
  refine ⟨by decide, by decide, by decide⟩

/-! ## C10 -/

/-- C10: when mp3-128 is requested, download_from_url strips it from the
formats passed to the free-download procedure; if an official strategy runs
(free page present or email gated) the preview-mp3 fallback files are
appended after the official downloads, for either value of the fallback
flag; if no official strategy applies the files are exactly the fallback
downloader's, again for either flag value. -/
theorem mp3_128_rerouted_to_fallback (hasFree reqEmail fallback : Bool)
    (formats : List Str) (official : List Str → List Str)
    (ti : List TrackInfo) (artist album : Str) (title : Option Str)
    (h : mp3_128 ∈ formats) :
    mp3_128 ∉ formats.filter (fun f => f ≠ mp3_128) ∧
    (hasFree = true ∨ reqEmail = true →
      download_from_url hasFree reqEmail fallback formats official ti artist album title =
        DLResult.files (official (formats.filter (fun f => f ≠ mp3_128)) ++
          download_fallback_mp3 ti artist album title)) ∧
    (hasFree = false → reqEmail = false →
      download_from_url hasFree reqEmail fallback formats official ti artist album title =
        DLResult.files (download_fallback_mp3 ti artist album title)) := by
  refine ⟨by simp, ?_, ?_⟩
  · rintro (rfl | rfl)
    · simp [download_from_url, h]
    · cases hasFree <;> simp [download_from_url, h]
  · rintro rfl rfl
    simp [download_from_url, h]

/-- C10 witness: a free-download release with mp3-128 and flac requested and
fallback disabled still appends the preview files after the official
flac download. -/
theorem mp3_128_rerouted_witness :
    mp3_128 ∈ [("flac".toList), mp3_128] ∧
      (mp3_128 ∉ [("flac".toList), mp3_128].filter (fun f => f ≠ mp3_128) ∧
       (true = true ∨ false = true →
         download_from_url true false false [("flac".toList), mp3_128]
             (fun fs => fs) [⟨some ("u".toList), some 1, ("T".toList)⟩]
             ("A".toList) ("B".toList) none =
           DLResult.files ((fun fs => fs)
             ([("flac".toList), mp3_128].filter (fun f => f ≠ mp3_128)) ++
             download_fallback_mp3 [⟨some ("u".toList), some 1, ("T".toList)⟩]
               ("A".toList) ("B".toList) none)) ∧
       (true = false → false = false →
         download_from_url true false false [("flac".toList), mp3_128]
             (fun fs => fs) [⟨some ("u".toList), some 1, ("T".toList)⟩]
             ("A".toList) ("B".toList) none =
           DLResult.files (download_fallback_mp3
             [⟨some ("u".toList), some 1, ("T".toList)⟩]
             ("A".toList) ("B".toList) none))) :=
  ⟨by decide,
   mp3_128_rerouted_to_fallback true false false [("flac".toList), mp3_128]
     (fun fs => fs) [⟨some ("u".toList), some 1, ("T".toList)⟩]
     ("A".toList) ("B".toList) none (by decide)⟩

/-! ## C7 -/

/-- C7: the free-download format loop processes every requested format in
order; a format present in the download mapping is resolved through the
stat endpoint, whose ok result selects the direct download URL and whose
err result selects the retry URL, any other result being a non-fatal
format-errored skip; a format absent from the mapping is a non-fatal
format-not-found skip; in all cases the remaining formats are still
processed. -/
theorem free_download_per_format (downloadable : List (Str × Str))
    (stat : Str → StatData) (fmt : Str) (fs : List Str) :
    free_download downloadable stat (fmt :: fs) =
      format_event downloadable stat fmt :: free_download downloadable stat fs ∧
    (lookupStr downloadable fmt = none →
      format_event downloadable stat fmt = FormatEvent.formatNotFound fmt) ∧
    (∀ u, lookupStr downloadable fmt = some u →
      (lowerStr (stat (stat_path u)).result = ("ok".toList) →
        format_event downloadable stat fmt =
          FormatEvent.download fmt (stat (stat_path u)).download_url) ∧
      (lowerStr (stat (stat_path u)).result ≠ ("ok".toList) →
        lowerStr (stat (stat_path u)).result = ("err".toList) →
        format_event downloadable stat fmt =
          FormatEvent.download fmt (stat (stat_path u)).retry_url) ∧
      (lowerStr (stat (stat_path u)).result ≠ ("ok".toList) →
        lowerStr (stat (stat_path u)).result ≠ ("err".toList) →
        format_event downloadable stat fmt = FormatEvent.formatErrored fmt)) := by
  refine ⟨rfl, ?_, ?_⟩
  · intro h
    simp [format_event, h]
  · intro u hu
    refine ⟨?_, ?_, ?_⟩
    · intro hok
      simp [format_event, hu, hok]
    · intro hnok herr
      simp [format_event, hu, hnok, herr]
    · intro hnok hnerr
      simp only [format_event, hu]
      rw [if_neg hnok, if_neg hnerr]

/-- C7 witness: a two-format request where flac is present with an OK stat
result and aac-hi is absent from the mapping. -/
theorem free_download_per_format_witness :
    free_download [(("flac".toList), ("/a/download/f".toList))]
        (fun p => ⟨("OK".toList), ("direct:".toList) ++ p, ("retry".toList)⟩)
        (("flac".toList) :: [("aac-hi".toList)]) =
      format_event [(("flac".toList), ("/a/download/f".toList))]
        (fun p => ⟨("OK".toList), ("direct:".toList) ++ p, ("retry".toList)⟩)
        ("flac".toList) ::
      free_download [(("flac".toList), ("/a/download/f".toList))]
        (fun p => ⟨("OK".toList), ("direct:".toList) ++ p, ("retry".toList)⟩)
        [("aac-hi".toList)] ∧
    lookupStr [(("flac".toList), ("/a/download/f".toList))] ("aac-hi".toList) = none ∧
    format_event [(("flac".toList), ("/a/download/f".toList))]
        (fun p => ⟨("OK".toList), ("direct:".toList) ++ p, ("retry".toList)⟩)
        ("aac-hi".toList) = FormatEvent.formatNotFound ("aac-hi".toList) :=
  ⟨(free_download_per_format _ _ _ _).1, by decide,
   (free_download_per_format [(("flac".toList), ("/a/download/f".toList))]
       (fun p => ⟨("OK".toList), ("direct:".toList) ++ p, ("retry".toList)⟩)
       ("aac-hi".toList) []).2.1 (by decide)⟩

/-! ## C6 -/

/-- C6 (amended): for an identifier given as a bare subdomain (fullmatching
the subdomain regex), an HTTP 404 on the artist-root fetch is caught and
reported as the not-found error and any other HTTP status as the
request-error message, both handled inside add_url so the caller's loop over
identifiers continues. -/
theorem add_url_subdomain_http_errors (name : Str) (parsed : ParsedUrl)
    (v : Bool) (h : bandcampSubdomainFullmatch name = true) :
    add_url name parsed v (.httpError 404) = AddUrlResult.screamNotFound ∧
    ∀ s, s ≠ 404 → add_url name parsed v (.httpError s) =
      AddUrlResult.screamRequestError := by
  constructor
  · simp [add_url, h, add_urls_from_artist]
  · intro s hs
    simp [add_url, h, add_urls_from_artist, hs]

/-- C6 counterexample: the same artist root reached through a URL-form
identifier (path /music) hits the unguarded _add_urls_from_artist call, so
the HTTP 404 escapes add_url instead of being reported as not-found. -/
theorem add_url_urlform_404_uncaught :
    add_url ("https://examplelabel.bandcamp.com/music".toList)
        ⟨("https".toList), ("examplelabel.bandcamp.com".toList), ("/music".toList)⟩
        false (.httpError 404) = AddUrlResult.uncaughtHttp 404 ∧
    AddUrlResult.uncaughtHttp 404 ≠ AddUrlResult.screamNotFound := by
  refine ⟨by decide, by decide⟩

/-- C6 witness: the bare subdomain coollabel, 404 and 500 outcomes. -/
theorem add_url_subdomain_witness :
    bandcampSubdomainFullmatch ("coollabel".toList) = true ∧
      (add_url ("coollabel".toList) ⟨[], [], []⟩ false (.httpError 404) =
        AddUrlResult.screamNotFound ∧
       ∀ s, s ≠ 404 → add_url ("coollabel".toList) ⟨[], [], []⟩ false
         (.httpError s) = AddUrlResult.screamRequestError) :=
  ⟨by decide, add_url_subdomain_http_errors ("coollabel".toList) ⟨[], [], []⟩
    false (by decide)⟩

/-! ## C5 -/

/-- C5 (amended): the Track Matcher agrees with the claim's four-rule
cascade on every track list whose titles are non-empty: first the exact
digit-run/track-number match, then the fuzzy title match, then the
singleton fallback, else none.  (On a track list containing an empty title
the code skips that track in the fuzzy phase while the claim's rule would
match it, see the counterexample.) -/
theorem find_matching_track_eq_claim (stem : Str) (tracks : List Track)
    (h : ∀ t ∈ tracks, t.title ≠ []) :
    find_matching_track stem tracks = find_matching_track_claim stem tracks := by
  unfold find_matching_track find_matching_track_claim
  have hfind : tracks.find?
      (fun t => !(t.title.isEmpty) && fuzzy_match (lowerStr stem) (lowerStr t.title)) =
      tracks.find? (fun t => fuzzy_match (lowerStr stem) (lowerStr t.title)) := by
    apply find?_ext
    intro t ht
    have := h t ht
    simp [List.isEmpty_iff, this]
  by_cases htr : tracks = []
  · subst htr
    simp only [if_pos rfl]
    cases firstDigitRun (lowerStr stem) <;> rfl
  · simp only [if_neg htr]
    rw [hfind]

/-- C5 counterexample: a two-track list whose first track has an empty
title; the claim's fuzzy rule matches it (the empty normalized title is
contained in every name) but the code's matcher skips it and returns no
match. -/
theorem find_matching_track_claim_mismatch :
    find_matching_track ("abc".toList)
        [⟨none, [], none⟩, ⟨none, ("xyz".toList), none⟩] = none ∧
    find_matching_track_claim ("abc".toList)
        [⟨none, [], none⟩, ⟨none, ("xyz".toList), none⟩] =
      some ⟨none, [], none⟩ := by
  refine ⟨by decide, by decide⟩

/-- C5 witness: a file whose name carries the digit sequence 07 matches the
track numbered 7 although its title is completely unrelated, ahead of any
title similarity. -/
theorem find_matching_track_witness :
    (∀ t ∈ [(⟨some 8, ("eight".toList), none⟩ : Track),
            ⟨some 7, ("completely unrelated".toList), none⟩], t.title ≠ []) ∧
    find_matching_track ("07 something else".toList)
        [⟨some 8, ("eight".toList), none⟩,
         ⟨some 7, ("completely unrelated".toList), none⟩] =
      find_matching_track_claim ("07 something else".toList)
        [⟨some 8, ("eight".toList), none⟩,
         ⟨some 7, ("completely unrelated".toList), none⟩] ∧
    find_matching_track ("07 something else".toList)
        [⟨some 8, ("eight".toList), none⟩,
         ⟨some 7, ("completely unrelated".toList), none⟩] =
      some ⟨some 7, ("completely unrelated".toList), none⟩ :=
  ⟨by decide,
   find_matching_track_eq_claim ("07 something else".toList)
     [⟨some 8, ("eight".toList), none⟩,
      ⟨some 7, ("completely unrelated".toList), none⟩] (by decide),
   by decide⟩

/-! ## C8 -/

/-- Invariant of the polling loop from an arbitrary time_sleeping state:
the iteration count is bounded by timeout + 1, a timeout failure always
carries the fixed message, an all-empty mailbox yields the timeout failure
after exactly timeout + 1 iterations, and a received message is the head of
the first non-empty check. -/
theorem poll_go_spec {Msg : Type} (timeout : Nat) (get : Nat → List Msg) :
    ∀ (fuel t : Nat), timeout + 1 - t = fuel → t ≤ timeout + 1 →
      (poll_go timeout get t).2 ≤ timeout + 1 ∧
      (∀ msg, (poll_go timeout get t).1 = PollResult.timeoutError msg →
        msg = emailTimeoutMsg) ∧
      ((∀ k, t < k → k ≤ timeout + 1 → get k = []) →
        poll_go timeout get t = (PollResult.timeoutError emailTimeoutMsg, timeout + 1)) ∧
      (∀ m, (poll_go timeout get t).1 = PollResult.received m →
        ∃ k, t < k ∧ k ≤ timeout + 1 ∧ (∀ j, t < j → j < k → get j = []) ∧
          (∃ rest, get k = m :: rest) ∧ (poll_go timeout get t).2 = k) := by
  intro fuel
  induction fuel with
  | zero =>
    intro t h0 hle
    have ht : t = timeout + 1 := by omega
    subst ht
    unfold poll_go
    rw [dif_pos (by omega)]
    refine ⟨le_refl _, ?_, ?_, ?_⟩
    · intro msg hmsg
      simpa using hmsg.symm
    · intro _
      rfl
    · intro m hm
      simp at hm
  | succ n ih =>
    intro t h0 hle
    unfold poll_go
    rw [dif_neg (by omega)]
    cases hget : get (t + 1) with
    | nil =>
      have hrec := ih (t + 1) (by omega) (by omega)
      refine ⟨hrec.1, hrec.2.1, ?_, ?_⟩
      · intro hall
        exact hrec.2.2.1 (fun k hk1 hk2 => hall k (by omega) hk2)
      · intro m hm
        obtain ⟨k, hk1, hk2, hgap, hmsg, hcnt⟩ := hrec.2.2.2 m hm
        refine ⟨k, by omega, hk2, ?_, hmsg, hcnt⟩
        intro j hj1 hj2
        by_cases hj : j = t + 1
        · subst hj
          exact hget
        · exact hgap j (by omega) hj2
    | cons m rest =>
      dsimp only
      refine ⟨by omega, ?_, ?_, ?_⟩
      · intro msg hmsg
        simp at hmsg
      · intro hall
        have := hall (t + 1) (by omega) (by omega)
        rw [hget] at this
        cases this
      · intro m' hm'
        simp at hm'
        subst hm'
        refine ⟨t + 1, by omega, by omega, ?_, ⟨rest, hget⟩, rfl⟩
        intro j hj1 hj2
        omega

/-- C8: for every timeout value and mailbox behaviour the polling loop of
_get_download_url_from_email terminates, performing at most timeout + 1
sleep-and-check iterations; it either raises the fixed email-not-received
hard failure (exactly when every check within the bound is empty, after
exactly timeout + 1 iterations) or returns the first message of the first
non-empty mailbox check. -/
theorem poll_terminates_within_timeout {Msg : Type} (timeout : Nat)
    (get : Nat → List Msg) :
    (poll timeout get).2 ≤ timeout + 1 ∧
    ((poll timeout get).1 = PollResult.timeoutError emailTimeoutMsg ∨
      ∃ m, (poll timeout get).1 = PollResult.received m) ∧
    ((∀ k, 1 ≤ k → k ≤ timeout + 1 → get k = []) →
      poll timeout get = (PollResult.timeoutError emailTimeoutMsg, timeout + 1)) ∧
    (∀ m, (poll timeout get).1 = PollResult.received m →
      ∃ k, 1 ≤ k ∧ k ≤ timeout + 1 ∧ (∀ j, 1 ≤ j → j < k → get j = []) ∧
        (∃ rest, get k = m :: rest) ∧ (poll timeout get).2 = k) := by
  have h := poll_go_spec timeout get (timeout + 1) 0 (by omega) (by omega)
  unfold poll
  refine ⟨h.1, ?_, ?_, ?_⟩
  · cases hr : (poll_go timeout get 0).1 with
    | received m => exact Or.inr ⟨m, rfl⟩
    | timeoutError msg =>
      left
      rw [h.2.1 msg hr]
  · intro hall
    exact h.2.2.1 (fun k hk1 hk2 => hall k (by omega) hk2)
  · intro m hm
    obtain ⟨k, hk1, hk2, hgap, hmsg, hcnt⟩ := h.2.2.2 m hm
    exact ⟨k, by omega, hk2, fun j hj1 hj2 => hgap j (by omega) hj2, hmsg, hcnt⟩

/-- C8 witness: a mailbox that stays empty makes the loop fail with the
email-not-received message after exactly timeout + 1 = 3 iterations. -/
theorem poll_terminates_witness :
    poll 2 (fun _ => ([] : List Nat)) =
      (PollResult.timeoutError emailTimeoutMsg, 3) :=
  (poll_terminates_within_timeout 2 (fun _ => [])).2.2.1 (fun _ _ _ => rfl)

/-! ## C1 -/

theorem sepCount_append (a b : Str) :
    sepCount (a ++ b) = sepCount a + sepCount b := by
  simp [sepCount, List.filter_append]

theorem replaceSep_not_mem (v : Str) : '/' ∉ replaceSep v := by
  intro hmem
  simp only [replaceSep, List.mem_map] at hmem
  obtain ⟨c, _, heq⟩ := hmem
  by_cases h : c = '/' <;> simp [h] at heq

theorem sepCount_eq_zero (s : Str) (h : '/' ∉ s) : sepCount s = 0 := by
  simp only [sepCount, List.length_eq_zero, List.filter_eq_nil_iff]
  intro a ha
  simp only [beq_iff_eq]
  intro heq
  exact h (heq ▸ ha)

theorem replaceSep_id (s : Str) (h : '/' ∉ s) : replaceSep s = s := by
  induction s with
  | nil => rfl
  | cons c cs ih =>
    have hc : c ≠ '/' := fun hc => h (by simp [hc])
    simp only [replaceSep, List.map_cons]
    rw [if_neg (by simpa using hc)]
    have := ih (fun hm => h (by simp [hm]))
    simpa [replaceSep] using this

theorem lookupCtx_sanitize (ctx : Ctx) (k : String) :
    lookupCtx (sanitizeContext ctx) k = replaceSep (lookupCtx ctx k) := by
  induction ctx with
  | nil => rfl
  | cons p rest ih =>
    obtain ⟨k₀, v⟩ := p
    simp only [sanitizeContext, List.map_cons, lookupCtx]
    by_cases h : k₀ = k
    · simp [h]
    · simpa [h, sanitizeContext] using ih

theorem render_sanitized_sepCount (tmpl : Template) (ctx : Ctx) :
    sepCount (render tmpl (sanitizeContext ctx)) = templateSepCount tmpl := by
  induction tmpl with
  | nil => rfl
  | cons item rest ih =>
    cases item with
    | lit s =>
      simp only [render, templateSepCount, sepCount_append, ih]
    | field k =>
      simp only [render, templateSepCount, sepCount_append, ih,
        lookupCtx_sanitize]
      rw [sepCount_eq_zero _ (replaceSep_not_mem _)]
      omega

theorem splitAtLastSep_none (s : Str) (h : splitAtLastSep s = none) :
    '/' ∉ s := by
  induction s with
  | nil => simp
  | cons c cs ih =>
    simp only [splitAtLastSep] at h
    cases hs : splitAtLastSep cs with
    | some p => rw [hs] at h; cases h
    | none =>
      rw [hs] at h
      by_cases hc : c = '/'
      · rw [if_pos (by simp [hc])] at h; cases h
      · intro hmem
        rcases List.mem_cons.mp hmem with heq | hmem'
        · exact hc heq.symm
        · exact ih hs hmem'

theorem splitAtLastSep_spec (s : Str) :
    ∀ d f, splitAtLastSep s = some (d, f) → s = d ++ '/' :: f ∧ '/' ∉ f := by
  induction s with
  | nil => intro d f h; cases h
  | cons c cs ih =>
    intro d f h
    simp only [splitAtLastSep] at h
    cases hs : splitAtLastSep cs with
    | some p =>
      obtain ⟨d', f'⟩ := p
      rw [hs] at h
      simp only [Option.some.injEq, Prod.mk.injEq] at h
      obtain ⟨hd, hf⟩ := h
      subst hd
      subst hf
      obtain ⟨ih1, ih2⟩ := ih d' f' hs
      exact ⟨by rw [List.cons_append, ← ih1], ih2⟩
    | none =>
      rw [hs] at h
      by_cases hc : c = '/'
      · rw [if_pos (by simp [hc])] at h
        simp only [Option.some.injEq, Prod.mk.injEq] at h
        obtain ⟨hd, hf⟩ := h
        subst hd
        subst hf
        subst hc
        exact ⟨rfl, splitAtLastSep_none cs hs⟩
      · rw [if_neg (by simpa using hc)] at h
        cases h

theorem hasAudioExt_append (u s : Str) (h : hasAudioExt s = true) :
    hasAudioExt (u ++ s) = true := by
  simp only [hasAudioExt, List.any_eq_true] at h ⊢
  obtain ⟨e, he, hsuf⟩ := h
  refine ⟨e, he, ?_⟩
  have hsuf' := List.isSuffixOf_iff_suffix.mp hsuf
  apply List.isSuffixOf_iff_suffix.mpr
  have : lowerStr (u ++ s) = lowerStr u ++ lowerStr s := by
    simp [lowerStr]
  rw [this]
  exact hsuf'.trans (List.suffix_append _ _)

theorem lastLine_of_no_newline (s : Str) (h : '\n' ∉ s) : lastLine s = s := by
  have hall : ∀ x ∈ s.reverse, (!(x == '\n')) = true := by
    intro x hx
    have hxs : x ∈ s := List.mem_reverse.mp hx
    have hne : x ≠ '\n' := fun he => h (he ▸ hxs)
    simpa using hne
  unfold lastLine
  rw [List.takeWhile_eq_self_iff.mpr hall, List.reverse_reverse]

theorem sanitize_file_path_join_id (dest r : Str) (hdest : dest ≠ [])
    (hdnl : '\n' ∉ dest) (hrnl : '\n' ∉ r)
    (haudio : hasAudioExt (dest ++ '/' :: r) = true) :
    sanitize_file_path (dest ++ '/' :: r) = dest ++ '/' :: r := by
  have hsnl : '\n' ∉ dest ++ '/' :: r := by
    intro hmem
    rcases List.mem_append.mp hmem with hm | hm
    · exact hdnl hm
    · rcases List.mem_cons.mp hm with hm | hm
      · exact absurd hm (by decide)
      · exact hrnl hm
  have hlast : ¬ (dest ++ '/' :: r).getLast? = some '\n' := by
    intro hg
    exact hsnl (List.mem_of_mem_getLast? hg)
  have hline : lastLine (dest ++ '/' :: r) = dest ++ '/' :: r :=
    lastLine_of_no_newline _ hsnl
  have hmem : '/' ∈ dest ++ '/' :: r := by simp
  cases hsp : splitAtLastSep (dest ++ '/' :: r) with
  | none => exact absurd hmem (splitAtLastSep_none _ hsp)
  | some p =>
    obtain ⟨d, f⟩ := p
    obtain ⟨heq, hf⟩ := splitAtLastSep_spec _ d f hsp
    have hd : d ≠ [] := by
      intro hd0
      subst hd0
      cases dest with
      | nil => exact hdest rfl
      | cons c cs =>
        have hx : c :: (cs ++ '/' :: r) = '/' :: f := heq
        injection hx with h1 h2
        exact hf (h2 ▸ (by simp : '/' ∈ cs ++ '/' :: r))
    simp only [sanitize_file_path]
    rw [if_neg hlast, hline, if_pos haudio, hsp]
    dsimp only
    rw [if_neg hd, replaceSep_id f hf]
    exact heq.symm

/-- C1 (amended): for every RenderContext (values may contain separators)
and every template, whenever the rendered relative path carries a
recognized audio suffix, contains no newline (the sanitizer's regex
cannot cross lines) and does not begin with a separator (pathlib would
discard the destination), the sanitizer leaves the joined path untouched,
the rendered part contains exactly the template's literal separators
(context data contributes none, having been hyphenated before rendering),
and move_file produces exactly the joined path.  Without the audio suffix
(the extra-template case) move_file instead hyphenates every separator,
see the counterexample. -/
theorem move_file_keeps_template_separators (dest : Str) (tmpl : Template)
    (ctx : Ctx) (hdest : dest ≠ []) (hdnl : '\n' ∉ dest)
    (haudio : hasAudioExt (render tmpl (sanitizeContext ctx)) = true)
    (hrnl : '\n' ∉ render tmpl (sanitizeContext ctx))
    (habs : ¬ (render tmpl (sanitizeContext ctx)).head? = some '/') :
    sanitize_file_path (dest ++ '/' :: render tmpl (sanitizeContext ctx)) =
      dest ++ '/' :: render tmpl (sanitizeContext ctx) ∧
    sepCount (render tmpl (sanitizeContext ctx)) = templateSepCount tmpl ∧
    (∀ (isAudio : Bool) (output output_extra : Template) (trackCtx : Ctx)
        (filename : Str) (context₀ : Ctx),
      tmpl = (if isAudio then output else output_extra) →
      ctx = (if isAudio then trackCtx ++ context₀
        else [(("filename" : String), filename)] ++ context₀) →
      move_file isAudio dest output output_extra trackCtx filename context₀ =
        dest ++ '/' :: render tmpl (sanitizeContext ctx)) := by
  have hmain : sanitize_file_path (dest ++ '/' :: render tmpl (sanitizeContext ctx)) =
      dest ++ '/' :: render tmpl (sanitizeContext ctx) :=
    sanitize_file_path_join_id dest _ hdest hdnl hrnl (by
      have := hasAudioExt_append (dest ++ [ '/' ]) _ haudio
      simpa using this)
  refine ⟨hmain, render_sanitized_sepCount tmpl ctx, ?_⟩
  intro isAudio output output_extra trackCtx filename context₀ h1 h2
  subst h1
  subst h2
  simp only [move_file]
  rw [if_neg habs]
  exact hmain

/-- C1 counterexample: a non-audio file moved through an extra template
with directory structure: all separators, the template's and the
destination's included, are hyphenated, so the output has no directory
components although the template contributes two literal separators. -/
theorem move_file_extra_template_collapses :
    move_file false ("dl".toList) []
        [TItem.field "artist", TItem.lit ("/extras/".toList),
         TItem.field "filename"]
        [] ("cover.jpg".toList) [(("artist" : String), ("AC".toList))] =
      ("dl-AC-extras-cover.jpg".toList) ∧
    templateSepCount [TItem.field "artist", TItem.lit ("/extras/".toList),
        TItem.field "filename"] = 2 ∧
    sepCount ("dl-AC-extras-cover.jpg".toList) = 0 := by
  refine ⟨by decide, by decide, by decide⟩

/-- C1 witness: an audio file rendered through a template with a
slash-containing title value lands at the untouched joined path. -/
theorem move_file_keeps_separators_witness :
    move_file true [ 'd' ] [TItem.field "t", TItem.lit (".mp3".toList)] []
        [(("t" : String), ("x/y".toList))] [] [] =
      [ 'd' ] ++ '/' :: render [TItem.field "t", TItem.lit (".mp3".toList)]
        (sanitizeContext ([(("t" : String), ("x/y".toList))] ++ [])) :=
  (move_file_keeps_template_separators [ 'd' ]
      [TItem.field "t", TItem.lit (".mp3".toList)]
      ([(("t" : String), ("x/y".toList))] ++ [])
      (by decide) (by decide) (by decide) (by decide)
      (by decide)).2.2 true _ _ _ _ _ rfl rfl

/-- A newline inside the joined path defeats the sanitizer's regex (its
dot class cannot cross lines) or confines the match to the final line,
dropping everything before it: the model reproduces both traced
behaviours of the program. -/
theorem sanitize_file_path_newline_behaviour :
    sanitize_file_path ("dl/x\ny.mp3".toList) = ("dl-x\ny.mp3".toList) ∧
    sanitize_file_path ("a/b\nc/d.mp3".toList) = ("c/d.mp3".toList) ∧
    sanitize_file_path ("a/b.mp3\n".toList) = ("a/b.mp3".toList) := by
  refine ⟨by decide, by decide, by decide⟩

/-- A template whose rendering begins with a separator makes the pathlib
join discard the destination entirely; the model keeps that rule. -/
theorem move_file_absolute_render_drops_destination :
    move_file true ("dl".toList) [TItem.lit ("/a/b.mp3".toList)] [] [] [] [] =
      ("/a/b.mp3".toList) := by decide

/-! ## C4 -/

theorem fourDigitLoop_eq (ds : List Str) :
    fourDigitLoop ds = (ds.filterMap firstFourDigits).find? yearOk := by
  induction ds with
  | nil => rfl
  | cons d ds ih =>
    simp only [fourDigitLoop, List.filterMap_cons]
    cases hf : firstFourDigits d with
    | none => exact ih
    | some y =>
      cases hy : yearOk y with
      | true => simp [List.find?, hy]
      | false => simp [List.find?, hy, ih]

theorem jsonLdLoop_eq (ds : List Str) :
    jsonLdLoop ds = (ds.map (fun d => d.take 4)).find? yearOk := by
  induction ds with
  | nil => rfl
  | cons d ds ih =>
    simp only [jsonLdLoop, List.map_cons]
    cases hy : yearOk (d.take 4) with
    | true => simp [List.find?, hy]
    | false => simp [List.find?, hy, ih]

theorem copyrightLoop_eq (l : List Str) :
    copyrightLoop l = l.find? yearOk := by
  induction l with
  | nil => rfl
  | cons y ys ih =>
    simp only [copyrightLoop]
    cases hy : yearOk y with
    | true => simp [List.find?, hy]
    | false => simp [List.find?, hy, ih]

theorem mem_scanYears (ok4 : Str → Bool) :
    ∀ (s : Str) (prev : Option Char) (y : Str),
      y ∈ scanYears ok4 prev s → ok4 y = true := by
  intro s
  induction s with
  | nil => intro prev y h; cases h
  | cons c cs ih =>
    intro prev y h
    simp only [scanYears] at h
    rcases List.mem_append.mp h with h1 | h2
    · split at h1
      · next hcond =>
        simp only [List.mem_singleton] at h1
        subst h1
        simp only [Bool.and_eq_true] at hcond
        exact hcond.1.2
      · cases h1
    · exact ih (some c) y h2

theorem le_maxL_of_mem {a : Nat} {l : List Nat} (h : a ∈ l) : a ≤ maxL l := by
  induction l with
  | nil => cases h
  | cons b l ih =>
    rcases List.mem_cons.mp h with rfl | h'
    · exact Nat.le_max_left _ _
    · exact (ih h').trans (Nat.le_max_right _ _)

theorem maxL_le {b : Nat} {l : List Nat} (h : ∀ a ∈ l, a ≤ b) : maxL l ≤ b := by
  induction l with
  | nil => exact Nat.zero_le _
  | cons a l ih =>
    exact Nat.max_le.mpr ⟨h a (by simp), ih (fun x hx => h x (by simp [hx]))⟩

theorem foldr_max_init (l : List Nat) (x : Nat) :
    l.foldr max x = max (l.foldr max 0) x := by
  induction l with
  | nil => simp
  | cons a l ih => simp [List.foldr, ih, Nat.max_assoc]

theorem maxL_append (l1 l2 : List Nat) :
    maxL (l1 ++ l2) = max (maxL l1) (maxL l2) := by
  simp only [maxL, List.foldr_append]
  rw [foldr_max_init]

theorem isDigit_digitsVal4 {a b c d : Char}
    (ha : a.isDigit = true) (hb : b.isDigit = true)
    (hc : c.isDigit = true) (hd : d.isDigit = true) :
    digitsVal [a, b, c, d] =
      1000 * (a.toNat - 48) + 100 * (b.toNat - 48) +
        10 * (c.toNat - 48) + (d.toNat - 48) := by
  obtain ⟨ha1, ha2⟩ := isDigit_toNat a ha
  obtain ⟨hb1, hb2⟩ := isDigit_toNat b hb
  obtain ⟨hc1, hc2⟩ := isDigit_toNat c hc
  obtain ⟨hd1, hd2⟩ := isDigit_toNat d hd
  simp only [digitsVal, List.foldl]
  omega

theorem yearOk_of_digit4 {a b c d : Char} (ha : a.isDigit = true)
    (hb : b.isDigit = true) (hc : c.isDigit = true) (hd : d.isDigit = true)
    (h1 : 1950 ≤ digitsVal [a, b, c, d]) (h2 : digitsVal [a, b, c, d] ≤ 2030) :
    yearOk [a, b, c, d] = true := by
  simp [yearOk, ha, hb, hc, hd, h1, h2]

theorem pat20_bounds (y : Str) (h : pat20 y = true) :
    yearOk y = true ∧ 2000 ≤ digitsVal y ∧ digitsVal y ≤ 2029 := by
  rcases y with _ | ⟨a, _ | ⟨b, _ | ⟨c, _ | ⟨d, _ | ⟨e, t⟩⟩⟩⟩⟩ <;>
    try simp [pat20] at h
  obtain ⟨⟨⟨ha, hb⟩, hc⟩, hd⟩ := h
  subst ha
  subst hb
  have hcd : c.isDigit = true := by rcases hc with (rfl | rfl) | rfl <;> rfl
  have hc48 : 48 ≤ c.toNat ∧ c.toNat ≤ 50 := by
    rcases hc with (rfl | rfl) | rfl <;> exact ⟨by decide, by decide⟩
  obtain ⟨hd1, hd2⟩ := isDigit_toNat d hd
  have hval := isDigit_digitsVal4 (a := '2') (b := '0') (by decide) (by decide) hcd hd
  rw [show ('2' : Char).toNat = 50 from rfl,
      show ('0' : Char).toNat = 48 from rfl] at hval
  exact ⟨yearOk_of_digit4 (by decide) (by decide) hcd hd (by omega) (by omega),
    by omega, by omega⟩

theorem pat19_bounds (y : Str) (h : pat19 y = true) :
    yearOk y = true ∧ 1950 ≤ digitsVal y ∧ digitsVal y ≤ 1999 := by
  rcases y with _ | ⟨a, _ | ⟨b, _ | ⟨c, _ | ⟨d, _ | ⟨e, t⟩⟩⟩⟩⟩ <;>
    try simp [pat19] at h
  obtain ⟨⟨⟨ha, hb⟩, hc⟩, hd⟩ := h
  subst ha
  subst hb
  have hcd : c.isDigit = true := by
    rcases hc with (((rfl | rfl) | rfl) | rfl) | rfl <;> rfl
  have hc48 : 53 ≤ c.toNat ∧ c.toNat ≤ 57 := by
    rcases hc with (((rfl | rfl) | rfl) | rfl) | rfl <;> exact ⟨by decide, by decide⟩
  obtain ⟨hd1, hd2⟩ := isDigit_toNat d hd
  have hval := isDigit_digitsVal4 (a := '1') (b := '9') (by decide) (by decide) hcd hd
  rw [show ('1' : Char).toNat = 49 from rfl,
      show ('9' : Char).toNat = 57 from rfl] at hval
  exact ⟨yearOk_of_digit4 (by decide) (by decide) hcd hd (by omega) (by omega),
    by omega, by omega⟩

theorem digitChar_toNat (d : Nat) (hd : d < 10) : (digitChar d).toNat = 48 + d := by
  interval_cases d <;> rfl

theorem digitChar_isDigit (d : Nat) (hd : d < 10) : (digitChar d).isDigit = true := by
  interval_cases d <;> rfl

theorem digitsVal_str4 (n : Nat) (h : n < 10000) : digitsVal (str4 n) = n := by
  have h3 : n / 1000 % 10 < 10 := Nat.mod_lt _ (by omega)
  have h2 : n / 100 % 10 < 10 := Nat.mod_lt _ (by omega)
  have h1 : n / 10 % 10 < 10 := Nat.mod_lt _ (by omega)
  have h0 : n % 10 < 10 := Nat.mod_lt _ (by omega)
  rw [str4, isDigit_digitsVal4 (digitChar_isDigit _ h3) (digitChar_isDigit _ h2)
      (digitChar_isDigit _ h1) (digitChar_isDigit _ h0),
    digitChar_toNat _ h3, digitChar_toNat _ h2, digitChar_toNat _ h1,
    digitChar_toNat _ h0]
  omega

theorem str4_yearOk (n : Nat) (hlo : 1950 ≤ n) (hhi : n ≤ 2030) :
    yearOk (str4 n) = true := by
  have h3 : n / 1000 % 10 < 10 := Nat.mod_lt _ (by omega)
  have h2 : n / 100 % 10 < 10 := Nat.mod_lt _ (by omega)
  have h1 : n / 10 % 10 < 10 := Nat.mod_lt _ (by omega)
  have h0 : n % 10 < 10 := Nat.mod_lt _ (by omega)
  have hv : digitsVal (str4 n) = n := digitsVal_str4 n (by omega)
  rw [str4] at hv ⊢
  exact yearOk_of_digit4 (digitChar_isDigit _ h3) (digitChar_isDigit _ h2)
    (digitChar_isDigit _ h1) (digitChar_isDigit _ h0)
    (by omega) (by omega)

theorem textYear_eq (text : Str) :
    textYearResult text =
      (match findallYears pat20 text ++ findallYears pat19 text with
       | [] => ([] : List Str)
       | _ :: _ => [str4 (maxL ((findallYears pat20 text ++
           findallYears pat19 text).map digitsVal))]).find? yearOk := by
  have h20 : ∀ y ∈ findallYears pat20 text,
      yearOk y = true ∧ 2000 ≤ digitsVal y ∧ digitsVal y ≤ 2029 :=
    fun y hy => pat20_bounds y (mem_scanYears pat20 text none y hy)
  have h19 : ∀ y ∈ findallYears pat19 text,
      yearOk y = true ∧ 1950 ≤ digitsVal y ∧ digitsVal y ≤ 1999 :=
    fun y hy => pat19_bounds y (mem_scanYears pat19 text none y hy)
  have hf1 : (findallYears pat20 text).filter yearOk = findallYears pat20 text :=
    List.filter_eq_self.mpr (fun a ha => (h20 a ha).1)
  have hf2 : (findallYears pat19 text).filter yearOk = findallYears pat19 text :=
    List.filter_eq_self.mpr (fun a ha => (h19 a ha).1)
  simp only [textYearResult]
  rw [hf1, hf2]
  cases hm1 : findallYears pat20 text with
  | nil =>
    simp only [List.map_nil, List.nil_append]
    cases hm2 : findallYears pat19 text with
    | nil => rfl
    | cons y ys =>
      rw [hm2] at h19
      have hlo : 1950 ≤ maxL ((y :: ys).map digitsVal) :=
        le_trans (h19 y (by simp)).2.1 (le_maxL_of_mem (by simp))
      have hhi : maxL ((y :: ys).map digitsVal) ≤ 1999 := by
        apply maxL_le
        intro a ha
        obtain ⟨u, hu, rfl⟩ := List.mem_map.mp ha
        exact (h19 u hu).2.2
      have hy := str4_yearOk (maxL ((y :: ys).map digitsVal)) hlo (by omega)
      rw [List.map_cons] at hy
      simp [List.find?, hy]
  | cons y ys =>
    rw [hm1] at h20
    have hA : 2000 ≤ maxL ((y :: ys).map digitsVal) :=
      le_trans (h20 y (by simp)).2.1 (le_maxL_of_mem (by simp))
    have hA2 : maxL ((y :: ys).map digitsVal) ≤ 2029 := by
      apply maxL_le
      intro a ha
      obtain ⟨u, hu, rfl⟩ := List.mem_map.mp ha
      exact (h20 u hu).2.2
    have hB : maxL ((findallYears pat19 text).map digitsVal) ≤ 1999 := by
      apply maxL_le
      intro a ha
      obtain ⟨u, hu, rfl⟩ := List.mem_map.mp ha
      exact (h19 u hu).2.2
    have hmax : maxL ((y :: (ys ++ findallYears pat19 text)).map digitsVal) =
        maxL ((y :: ys).map digitsVal) := by
      rw [← List.cons_append, List.map_append, maxL_append,
        Nat.max_eq_left (by omega)]
    rw [List.cons_append, hmax]
    have hy := str4_yearOk (maxL ((y :: ys).map digitsVal)) (by omega) (by omega)
    rw [List.map_cons] at hy
    simp [List.find?, hy]

/-- C4: the six-level year cascade returns exactly the first candidate, in
priority order, that passes the [1950, 2030] bounds check: the credits
released-phrase year, then the meta-tag years, the pagedata release/publish
years, the JSON-LD publication years, the most recent word-bounded year
literal of the two last-resort ranges, and finally the copyright years;
out-of-range candidates are discarded and the cascade continues. -/
theorem extract_release_year_eq_claim (p : Page) :
    extract_release_year p = release_year_claim p := by
  have h1 : (match p.creditsText with
      | some t =>
        match searchReleasedYear t with
        | some y => if yearOk y then some y else none
        | none => none
      | none => (none : Option Str)) =
      (match p.creditsText with
       | some t => (searchReleasedYear t).toList
       | none => ([] : List Str)).find? yearOk := by
    cases p.creditsText with
    | none => rfl
    | some t =>
      dsimp only
      cases hs : searchReleasedYear t with
      | none => rfl
      | some y =>
        cases hy : yearOk y <;> simp [List.find?, hy, Option.toList]
  have h3 : (match p.pagedataCurrent with
      | some cur => fourDigitLoop (currentDates cur)
      | none => (none : Option Str)) =
      (match p.pagedataCurrent with
       | some cur => (currentDates cur).filterMap firstFourDigits
       | none => ([] : List Str)).find? yearOk := by
    cases p.pagedataCurrent with
    | none => rfl
    | some cur => exact fourDigitLoop_eq _
  have h6 : (match copyrightLoop (scanCopyright1 p.pageText) with
      | some y => some y
      | none => copyrightLoop (scanCopyright2 p.pageText)) =
      ((scanCopyright1 p.pageText).find? yearOk).or
        ((scanCopyright2 p.pageText).find? yearOk) := by
    rw [copyrightLoop_eq, copyrightLoop_eq]
    cases (scanCopyright1 p.pageText).find? yearOk <;> simp [Option.or]
  simp only [extract_release_year, release_year_claim, yearCandidates,
    List.find?_append, Option.or_assoc]
  rw [h1, h3, h6, fourDigitLoop_eq, jsonLdLoop_eq, textYear_eq]

/-- C4 witness: a page whose credits year 1885 is out of range and whose
first meta tag carries the out-of-range 2033 falls through to the second
meta tag's 2021, ahead of the page-text literal 2015. -/
theorem extract_release_year_claim_witness :
    extract_release_year
        ⟨some ("released May 3, 1885".toList),
         [("2033-01-01".toList), ("2021-05-03".toList)], none, [],
         ("x 2015 y".toList)⟩ =
      release_year_claim
        ⟨some ("released May 3, 1885".toList),
         [("2033-01-01".toList), ("2021-05-03".toList)], none, [],
         ("x 2015 y".toList)⟩ ∧
    extract_release_year
        ⟨some ("released May 3, 1885".toList),
         [("2033-01-01".toList), ("2021-05-03".toList)], none, [],
         ("x 2015 y".toList)⟩ = some ("2021".toList) :=
  ⟨extract_release_year_eq_claim _, by decide⟩
